import Mathlib

/-!
Shallow embedding of the sharded-backup core of the clickhouse-backup
repository: the version gate (`canShardOperation`), the consistent
ownership-assignment function (`fnvHashModShardFunc`), the shard
determination driver (`determineShards`), the assignment lookup
(`inShard`), and the orchestration step (`populateBackupShardField`).

Go's `(value, error)` multi-returns are embedded as `value × Option GoError`
pairs (or `Except GoError value` where Go returns `nil` for the value on
error); Go maps are embedded as enumeration lists of entries (for
`replica_is_active`, whose iteration order the code ranges over) or as
finite partial functions `String → Option Bool` (for the write-once
`shardDetermination` map); Go's `error` values are embedded as the
inductive `GoError`, with `fmt.Errorf("...: %w", err)` wrapping embedded
by the `wrapped` constructor and `errors.Is` by `GoError.is`.
-/

namespace ClickhouseBackup

/-! ### Byte-lexicographic string comparison (Go's `sort.Strings` order)

Go compares strings byte-lexicographically over their UTF-8 bytes; since
UTF-8 is order-preserving on code points, this coincides with
lexicographic comparison of the code-point sequences, which is what
`lexLeb` computes. -/

/-- Lexicographic less-or-equal on code-point lists. -/
def lexLeb : List Char → List Char → Bool
  | [], _ => true
  | _ :: _, [] => false
  | a :: as, b :: bs =>
    if a.toNat < b.toNat then true
    else if b.toNat < a.toNat then false
    else lexLeb as bs

/-- Go's `<=` on strings, as a Bool. -/
def strLeb (a b : String) : Bool :=
  lexLeb a.data b.data

/-- The propositional form of `strLeb`, used as the sort relation. -/
def strLeP (a b : String) : Prop :=
  strLeb a b = true

instance : DecidableRel strLeP := fun a b =>
  inferInstanceAs (Decidable (strLeb a b = true))

theorem lexLeb_total (as bs : List Char) : lexLeb as bs = true ∨ lexLeb bs as = true := by
  induction as generalizing bs with
  | nil => exact Or.inl rfl
  | cons a as ih =>
    cases bs with
    | nil => exact Or.inr rfl
    | cons b bs =>
      simp only [lexLeb]
      rcases Nat.lt_trichotomy a.toNat b.toNat with h | h | h
      · left; simp [h]
      · have h1 : ¬ a.toNat < b.toNat := by omega
        have h2 : ¬ b.toNat < a.toNat := by omega
        rcases ih bs with hl | hr
        · left; simp [h1, h2, hl]
        · right; simp [h1, h2, hr]
      · right; simp [h]

theorem lexLeb_trans {as bs cs : List Char} (hab : lexLeb as bs = true)
    (hbc : lexLeb bs cs = true) : lexLeb as cs = true := by
  induction as generalizing bs cs with
  | nil => rfl
  | cons a as ih =>
    cases bs with
    | nil => simp [lexLeb] at hab
    | cons b bs =>
      cases cs with
      | nil => simp [lexLeb] at hbc
      | cons c cs =>
        simp only [lexLeb] at hab hbc ⊢
        by_cases hab1 : a.toNat < b.toNat
        · by_cases hbc1 : b.toNat < c.toNat
          · simp [show a.toNat < c.toNat by omega]
          · simp only [hbc1, if_false] at hbc
            by_cases hbc2 : c.toNat < b.toNat
            · simp [hbc2] at hbc
            · simp [show a.toNat < c.toNat by omega]
        · simp only [hab1, if_false] at hab
          by_cases hab2 : b.toNat < a.toNat
          · simp [hab2] at hab
          · simp only [hab2, if_false] at hab
            by_cases hbc1 : b.toNat < c.toNat
            · simp [show a.toNat < c.toNat by omega]
            · simp only [hbc1, if_false] at hbc
              by_cases hbc2 : c.toNat < b.toNat
              · simp [hbc2] at hbc
              · simp only [hbc2, if_false] at hbc
                have h1 : ¬ a.toNat < c.toNat := by omega
                have h2 : ¬ c.toNat < a.toNat := by omega
                simp [h1, h2, ih hab hbc]

theorem lexLeb_antisymm {as bs : List Char} (hab : lexLeb as bs = true)
    (hba : lexLeb bs as = true) : as = bs := by
  induction as generalizing bs with
  | nil =>
    cases bs with
    | nil => rfl
    | cons b bs => simp [lexLeb] at hba
  | cons a as ih =>
    cases bs with
    | nil => simp [lexLeb] at hab
    | cons b bs =>
      simp only [lexLeb] at hab hba
      by_cases h1 : a.toNat < b.toNat
      · simp [show ¬ b.toNat < a.toNat by omega, h1] at hba
      · by_cases h2 : b.toNat < a.toNat
        · simp [h1, h2] at hab
        · simp only [h1, h2, if_false] at hab hba
          have hn : a.toNat = b.toNat := by omega
          have hv : a.val.toNat = b.val.toNat := hn
          have hval : a = b := Char.eq_of_val_eq (UInt32.ext hv)
          rw [hval, ih hab hba]

instance : IsTotal String strLeP :=
  ⟨fun a b => lexLeb_total a.data b.data⟩

instance : IsTrans String strLeP :=
  ⟨fun _ _ _ hab hbc => lexLeb_trans hab hbc⟩

instance : IsAntisymm String strLeP :=
  ⟨fun a b hab hba => by
    have h := lexLeb_antisymm hab hba
    cases a; cases b; exact congrArg String.mk h⟩

/-- Embedding of Go's `sort.Strings`: sort ascending in byte-lexicographic
order (any correct sort; we use insertion sort for executability). -/
def sortStrings (l : List String) : List String :=
  List.insertionSort strLeP l

/-! ### Errors -/

/-- Embedding of the Go `error` values this core produces: the three
package-level sentinel errors, opaque external errors (from the versioner,
the querier, or a pluggable shard function), and `fmt.Errorf("msg: %w", e)`
wrapping. -/
inductive GoError where
  | errUnknownBackupShard : GoError
  | errNoActiveReplicas : GoError
  | errShardOperationVers : GoError
  | external : Nat → GoError
  | wrapped : String → GoError → GoError
deriving DecidableEq, Repr

/-- Embedding of Go's `errors.Is`: equality after repeatedly unwrapping. -/
def GoError.is : GoError → GoError → Bool
  | .wrapped m c, t => (GoError.wrapped m c == t) || c.is t
  | e, t => e == t

/-- Model of Go's `%q` format verb for identifier-like names (no escaping
beyond surrounding quotes is needed for the names the claims mention). -/
def goQuote (s : String) : String :=
  "\"" ++ s ++ "\""

/-! ### Version gate (src/pkg/backup/version.go) -/

def minVersShardOp : Int := 21000000

/-- Embedding of `canShardOperation`: the versioner's `GetVersion` result is
passed in as an `Except` (error or version integer). Returns `some e` where
the Go function returns a non-nil error `e`, and `none` where it returns nil. -/
def canShardOperation (versionResult : Except GoError Int) : Option GoError :=
  match versionResult with
  | .error err => some err
  | .ok version =>
    if version < minVersShardOp then some GoError.errShardOperationVers
    else none

/-! ### Replica metadata and the FNV-1a assignment function -/

/-- Embedding of `tableReplicaMetadata`. The Go field `ReplicaIsActive` is a
`map[string]int`; it is embedded as the entry list the code's `range` loop
enumerates (keys unique in an actual map). -/
structure tableReplicaMetadata where
  database : String
  table : String
  replicaName : String
  replicaIsActive : List (String × Int)
deriving DecidableEq, Repr

/-- Embedding of `(*tableReplicaMetadata).fullName`. -/
def tableReplicaMetadata.fullName (md : tableReplicaMetadata) : String :=
  md.database ++ "." ++ md.table

/-- UTF-8 bytes of a string (Go's `[]byte(s)`), as naturals. -/
def utf8Bytes (s : String) : List Nat :=
  s.data.flatMap (fun c => (String.utf8EncodeChar c).map (fun b => b.toNat))

/-- FNV-1a 32-bit hash (Go's `hash/fnv` `New32a` / `Write` / `Sum32`):
start from offset basis 2166136261; for each byte, xor then multiply by
the prime 16777619, modulo 2^32. -/
def fnv1a32 (bytes : List Nat) : Nat :=
  bytes.foldl (fun h b => ((h ^^^ b) * 16777619) % 4294967296) 2166136261

/-- Embedding of `fnvHashModShardFunc`. Collect the names of replicas whose
activity indicator is positive; if none, fail with a wrapped
`errNoActiveReplicas`; otherwise sort them, hash the qualified table name,
and own the table iff the name at `hash mod count` is the local replica.
The Go code casts the active count to `uint32` before the `%`; the
embedding takes the count as a natural directly (the cast is lossless for
any list shorter than 2^32 entries). -/
def fnvHashModShardFunc (md : tableReplicaMetadata) : Bool × Option GoError :=
  let activeReplicas := (md.replicaIsActive.filter (fun p => 0 < p.2)).map Prod.fst
  if activeReplicas.length = 0 then
    (false, some (GoError.wrapped
      ("could not determine in-shard state for " ++ md.fullName)
      GoError.errNoActiveReplicas))
  else
    let sorted := sortStrings activeReplicas
    let i := fnv1a32 (utf8Bytes md.fullName) % sorted.length
    (sorted.getD i "" == md.replicaName, none)

/-! ### Shard determination (the `replicaDeterminer`) -/

/-- The `shardDetermination` map, embedded as a finite partial function. -/
def emptyShardDetermination : String → Option Bool := fun _ => none

/-- Go map write `d[k] = v` (overwrites any previous entry). -/
def mapUpdate (d : String → Option Bool) (k : String) (v : Bool) :
    String → Option Bool :=
  fun x => if x = k then some v else d x

/-- Embedding of `shardDetermination.inShard`. -/
def inShard (d : String → Option Bool) (database table : String) :
    Bool × Option GoError :=
  let fullName := database ++ "." ++ table
  match d fullName with
  | none =>
    (false, some (GoError.wrapped
      ("error determining backup shard state for " ++ goQuote fullName)
      GoError.errUnknownBackupShard))
  | some presentInShard => (presentInShard, none)

/-- Embedding of `(*replicaDeterminer).getReplicaState`: the querier's
result is passed in as an `Except`; a query error is wrapped with the
"could not determine replication state" message. -/
def getReplicaState (queryResult : Except GoError (List tableReplicaMetadata)) :
    Except GoError (List tableReplicaMetadata) :=
  match queryResult with
  | .error err => .error (GoError.wrapped "could not determine replication state" err)
  | .ok md => .ok md

/-- The row loop of `determineShards`: apply the shard function to each row
in order, aborting with the first row error, otherwise writing
`fullName ↦ assigned` into the accumulating map. -/
def applyShardFunc (sf : tableReplicaMetadata → Bool × Option GoError) :
    List tableReplicaMetadata → (String → Option Bool) →
    Except GoError (String → Option Bool)
  | [], sd => .ok sd
  | entry :: rest, sd =>
    match sf entry with
    | (_, some err) => .error err
    | (assigned, none) => applyShardFunc sf rest (mapUpdate sd entry.fullName assigned)

/-- Embedding of `(*replicaDeterminer).determineShards`. `Except.error e`
embeds Go's `return nil, e` (no assignment is produced on any failure). -/
def determineShards (queryResult : Except GoError (List tableReplicaMetadata))
    (sf : tableReplicaMetadata → Bool × Option GoError) :
    Except GoError (String → Option Bool) :=
  match getReplicaState queryResult with
  | .error err => .error err
  | .ok md => applyShardFunc sf md emptyShardDetermination

/-! ### The orchestration step (`populateBackupShardField`) -/

/-- Modelled from the spec: the `clickhouse.ShardBackupType` enumeration
(the type itself lives outside the provided sources; only the constants
`ShardBackupFull` and `ShardBackupSchema` are referenced). The spec calls
the values Full and SchemaOnly; `unspecified` stands for whatever value a
table carries before the orchestration step assigns it. -/
inductive ShardBackupType where
  | full : ShardBackupType
  | schema : ShardBackupType
  | unspecified : ShardBackupType
deriving DecidableEq, Repr

/-- Modelled from the spec: the fields of `clickhouse.Table` this core
reads or writes (`Database`, `Name`, `BackupType`); `rest` stands for all
its remaining fields, which the core never touches. -/
structure Table (α : Type) where
  database : String
  name : String
  backupType : ShardBackupType
  rest : α
deriving DecidableEq, Repr

/-- The annotation loop of `populateBackupShardField`: for each table in
input order, look it up in the assignment; on a lookup error stop at once
(tables from the failing one on are left as they are), otherwise downgrade
the table to schema-only when the looked-up value is false. -/
def annotateTables {α : Type} (assignment : String → Option Bool) :
    List (Table α) → List (Table α) × Option GoError
  | [] => ([], none)
  | t :: rest =>
    match inShard assignment t.database t.name with
    | (_, some err) => (t :: rest, some err)
    | (typ, none) =>
      let t' := if typ then t else { t with backupType := ShardBackupType.schema }
      let (rest', err) := annotateTables assignment rest
      (t' :: rest', err)

/-- Embedding of `(*Backuper).populateBackupShardField`. The Go method
mutates the table slice in place and returns an error; the embedding
returns the final state of the slice together with that error. The
versioner's and querier's behavior are passed in as result values
(`versionResult`, `queryResult`), and the sharder is the concrete
`replicaDeterminer` over the pluggable shard function `sf`. -/
def populateBackupShardField {α : Type} (shardedOperation : Bool)
    (versionResult : Except GoError Int)
    (queryResult : Except GoError (List tableReplicaMetadata))
    (sf : tableReplicaMetadata → Bool × Option GoError)
    (tables : List (Table α)) : List (Table α) × Option GoError :=
  let tables := tables.map (fun t => { t with backupType := ShardBackupType.full })
  if !shardedOperation then (tables, none)
  else
    match canShardOperation versionResult with
    | some err => (tables, some err)
    | none =>
      match determineShards queryResult sf with
      | .error err => (tables, some err)
      | .ok assignment => annotateTables assignment tables

/-! ### Helper lemmas about `sortStrings` -/

theorem sortStrings_perm (l : List String) : (sortStrings l).Perm l :=
  List.perm_insertionSort strLeP l

theorem sortStrings_sorted (l : List String) : (sortStrings l).Sorted strLeP :=
  List.sorted_insertionSort strLeP l

/-- The byte-lexicographically sorted permutation of a list of names is
unique, so any sorted permutation is what `sortStrings` returns. -/
theorem eq_sortStrings_of_perm_of_sorted {s l : List String}
    (hp : s.Perm l) (hs : s.Sorted strLeP) : s = sortStrings l :=
  List.eq_of_perm_of_sorted (hp.trans (sortStrings_perm l).symm) hs (sortStrings_sorted l)

theorem sortStrings_congr_perm {l l' : List String} (h : l.Perm l') :
    sortStrings l = sortStrings l' :=
  eq_sortStrings_of_perm_of_sorted ((sortStrings_perm l).trans h) (sortStrings_sorted l)

theorem sortStrings_length (l : List String) : (sortStrings l).length = l.length :=
  (sortStrings_perm l).length_eq

theorem strBeq_swap (a b : String) : (a == b) = (b == a) := by
  by_cases h : a = b
  · rw [h]
  · have h1 : (a == b) = false := beq_eq_false_iff_ne.mpr h
    have h2 : (b == a) = false := beq_eq_false_iff_ne.mpr (Ne.symm h)
    rw [h1, h2]

/-- The assignment function is invariant under permuting the
active-replica name list (its output depends on the activity map only
through the multiset of active names). -/
theorem fnvHashModShardFunc_congr_perm (db tbl rn : String)
    (e e' : List (String × Int))
    (hact : ((e.filter (fun p => 0 < p.2)).map Prod.fst).Perm
            ((e'.filter (fun p => 0 < p.2)).map Prod.fst)) :
    fnvHashModShardFunc ⟨db, tbl, rn, e⟩ = fnvHashModShardFunc ⟨db, tbl, rn, e'⟩ := by
  rw [fnvHashModShardFunc, fnvHashModShardFunc]
  simp only
  rw [hact.length_eq, sortStrings_congr_perm hact]
  rfl

/-! ### Claim theorems -/

/-- C4: for every versioner outcome, `canShardOperation` propagates a
retrieval error verbatim; a retrieved version below the fixed minimum
21000000 yields the distinct `errShardOperationVers`; any version at or
above the minimum yields no error. -/
theorem canShardOperation_cases (e : GoError) (v : Int) :
    canShardOperation (.error e) = some e
    ∧ (v < minVersShardOp → canShardOperation (.ok v) = some GoError.errShardOperationVers)
    ∧ (minVersShardOp ≤ v → canShardOperation (.ok v) = none) := by
  refine ⟨rfl, fun h => ?_, fun h => ?_⟩
  · simp [canShardOperation, h]
  · simp [canShardOperation, show ¬ v < minVersShardOp by omega]

/-- Witness for C4, mirroring the repository's `TestCanShardOperation`:
a retrieval error surfaces verbatim, version -1 is too low, and version
21000000 (the minimum) is accepted. -/
theorem canShardOperation_cases_witness :
    canShardOperation (.error (.external 7)) = some (GoError.external 7)
    ∧ canShardOperation (.ok (-1)) = some GoError.errShardOperationVers
    ∧ canShardOperation (.ok 21000000) = none :=
  ⟨(canShardOperation_cases (.external 7) 0).1,
   (canShardOperation_cases (.external 7) (-1)).2.1 (by decide),
   (canShardOperation_cases (.external 7) 21000000).2.2 (by decide)⟩

/-- C5: the assignment function fails if and only if every activity
indicator in the snapshot is at most zero (including the empty map), and
any failure is exactly the `(false, wrapped errNoActiveReplicas)` outcome
whose message names the qualified table. -/
theorem fnvHashModShardFunc_noActiveReplicas_iff (md : tableReplicaMetadata) :
    (fnvHashModShardFunc md = (false, some (GoError.wrapped
        ("could not determine in-shard state for " ++ md.fullName)
        GoError.errNoActiveReplicas))
      ↔ ∀ p ∈ md.replicaIsActive, p.2 ≤ 0)
    ∧ (∀ e, (fnvHashModShardFunc md).2 = some e →
        e = GoError.wrapped ("could not determine in-shard state for " ++ md.fullName)
              GoError.errNoActiveReplicas
        ∧ e.is GoError.errNoActiveReplicas = true) := by
  have hiff : ((md.replicaIsActive.filter (fun p => 0 < p.2)).map Prod.fst).length = 0
      ↔ ∀ p ∈ md.replicaIsActive, p.2 ≤ 0 := by
    simp only [List.length_map, List.length_eq_zero, List.filter_eq_nil_iff,
      decide_eq_true_eq]
    constructor
    · intro h p hp
      have := h p hp
      omega
    · intro h p hp
      have := h p hp
      omega
  constructor
  · constructor
    · intro h
      rw [fnvHashModShardFunc] at h
      by_cases hlen : ((md.replicaIsActive.filter (fun p => 0 < p.2)).map Prod.fst).length = 0
      · exact hiff.mp hlen
      · simp only [hlen, if_false] at h
        exact absurd (congrArg Prod.snd h) (by simp)
    · intro h
      rw [fnvHashModShardFunc]
      simp [hiff.mpr h]
  · intro e he
    rw [fnvHashModShardFunc] at he
    by_cases hlen : ((md.replicaIsActive.filter (fun p => 0 < p.2)).map Prod.fst).length = 0
    · rw [if_pos hlen] at he
      simp only [Option.some.injEq] at he
      subst he
      exact ⟨rfl, by simp [GoError.is]⟩
    · rw [if_neg hlen] at he
      simp at he

/-- Witness for C5: the empty activity map (first Go test case of
`TestFNVHashModShardFunc`) fails with the wrapped no-active-replicas
error. -/
theorem fnvHashModShardFunc_noActiveReplicas_witness :
    fnvHashModShardFunc ⟨"database", "table", "replica", []⟩ =
      (false, some (GoError.wrapped "could not determine in-shard state for database.table"
        GoError.errNoActiveReplicas)) :=
  (fnvHashModShardFunc_noActiveReplicas_iff ⟨"database", "table", "replica", []⟩).1.mpr
    (by decide)

/-- C6: looking up a key never inserted returns `false` together with the
wrapped unknown-backup-shard error naming the qualified table; looking up
a present key returns exactly the stored boolean with no error. -/
theorem inShard_lookup_cases (d : String → Option Bool) (database tbl : String) :
    (d (database ++ "." ++ tbl) = none →
      inShard d database tbl = (false, some (GoError.wrapped
        ("error determining backup shard state for " ++ goQuote (database ++ "." ++ tbl))
        GoError.errUnknownBackupShard)))
    ∧ (∀ b, d (database ++ "." ++ tbl) = some b → inShard d database tbl = (b, none)) := by
  constructor
  · intro h
    simp [inShard, h]
  · intro b h
    simp [inShard, h]

/-- Witness for C6: on a concrete two-entry assignment, an absent key
fails with the unknown-backup-shard error, and present keys return their
stored booleans (both `true` and `false`). -/
theorem inShard_lookup_cases_witness :
    inShard (mapUpdate (mapUpdate emptyShardDetermination "a.b" true) "a.c" false) "a" "z" =
      (false, some (GoError.wrapped
        ("error determining backup shard state for " ++ goQuote "a.z")
        GoError.errUnknownBackupShard))
    ∧ inShard (mapUpdate (mapUpdate emptyShardDetermination "a.b" true) "a.c" false) "a" "b" =
      (true, none)
    ∧ inShard (mapUpdate (mapUpdate emptyShardDetermination "a.b" true) "a.c" false) "a" "c" =
      (false, none) :=
  ⟨(inShard_lookup_cases _ "a" "z").1 rfl,
   (inShard_lookup_cases _ "a" "b").2 true rfl,
   (inShard_lookup_cases _ "a" "c").2 false rfl⟩

/-- C8: with the sharded-operation flag off, the orchestration step marks
every table Full and returns no error, and its outcome is identical for
every versioner outcome and every querier outcome (it never consults
either). -/
theorem populateBackupShardField_flag_off {α : Type}
    (versionResult : Except GoError Int)
    (queryResult : Except GoError (List tableReplicaMetadata))
    (sf : tableReplicaMetadata → Bool × Option GoError)
    (tables : List (Table α)) :
    populateBackupShardField false versionResult queryResult sf tables =
      (tables.map (fun t => { t with backupType := ShardBackupType.full }), none)
    ∧ ∀ (versionResult' : Except GoError Int)
        (queryResult' : Except GoError (List tableReplicaMetadata)),
        populateBackupShardField false versionResult queryResult sf tables =
        populateBackupShardField false versionResult' queryResult' sf tables :=
  ⟨rfl, fun _ _ => rfl⟩

/-- C1: on a snapshot with at least one active replica, the assignment
function returns no error, and returns ownership exactly when the entry at
index (FNV-1a hash of the UTF-8 bytes of `database ++ "." ++ table`) mod
(number of active replicas) in the lexicographically sorted list of active
replica names equals the snapshot's local replica name. The sorted list is
characterized abstractly: any `sorted` that is a sorted permutation of the
active-replica names. -/
theorem fnvHashModShardFunc_ownership (md : tableReplicaMetadata) (sorted : List String)
    (hne : (md.replicaIsActive.filter (fun p => 0 < p.2)).map Prod.fst ≠ [])
    (hperm : sorted.Perm ((md.replicaIsActive.filter (fun p => 0 < p.2)).map Prod.fst))
    (hsorted : sorted.Sorted strLeP) :
    (fnvHashModShardFunc md).2 = none
    ∧ ((fnvHashModShardFunc md).1 = true ↔
        sorted.getD (fnv1a32 (utf8Bytes (md.database ++ "." ++ md.table)) %
          ((md.replicaIsActive.filter (fun p => 0 < p.2)).map Prod.fst).length) ""
          = md.replicaName) := by
  have hsort_eq : sorted =
      sortStrings ((md.replicaIsActive.filter (fun p => 0 < p.2)).map Prod.fst) :=
    eq_sortStrings_of_perm_of_sorted hperm hsorted
  have hlen : ¬ ((md.replicaIsActive.filter (fun p => 0 < p.2)).map Prod.fst).length = 0 := by
    simpa [List.length_eq_zero] using hne
  rw [fnvHashModShardFunc]
  simp only [if_neg hlen, beq_iff_eq, tableReplicaMetadata.fullName]
  refine ⟨trivial, ?_⟩
  rw [sortStrings_length, ← hsort_eq]

/-- Witness for C1: a two-replica snapshot where both replicas are active;
the sorted active list is `["r1", "r2"]`. -/
theorem fnvHashModShardFunc_ownership_witness :
    (fnvHashModShardFunc ⟨"db", "tbl", "r1", [("r2", 1), ("r1", 1)]⟩).2 = none
    ∧ ((fnvHashModShardFunc ⟨"db", "tbl", "r1", [("r2", 1), ("r1", 1)]⟩).1 = true ↔
        ["r1", "r2"].getD (fnv1a32 (utf8Bytes ("db" ++ "." ++ "tbl")) % 2) "" = "r1") :=
  fnvHashModShardFunc_ownership ⟨"db", "tbl", "r1", [("r2", 1), ("r1", 1)]⟩ ["r1", "r2"]
    (by decide) (by decide) (by decide)

/-- C2: for a fixed qualified table name and a fixed non-empty
active-replica set (replica names unique, as in a Go map), running the
assignment function once per active replica with an identical snapshot
yields ownership for exactly one of them; and the entire (ownership, error)
output is invariant under permuting the activity map's entry enumeration. -/
theorem fnvHashModShardFunc_exclusive_orderInvariant
    (db tbl : String) (entries entriesPerm : List (String × Int))
    (hnd : (entries.map Prod.fst).Nodup)
    (hperm : entriesPerm.Perm entries)
    (hne : (entries.filter (fun p => 0 < p.2)).map Prod.fst ≠ []) :
    (((entries.filter (fun p => 0 < p.2)).map Prod.fst).filter
        (fun r => (fnvHashModShardFunc ⟨db, tbl, r, entries⟩).1)).length = 1
    ∧ ∀ r : String,
        fnvHashModShardFunc ⟨db, tbl, r, entriesPerm⟩ =
          fnvHashModShardFunc ⟨db, tbl, r, entries⟩ := by
  have hlen : ¬ ((entries.filter (fun p => 0 < p.2)).map Prod.fst).length = 0 := by
    simpa [List.length_eq_zero] using hne
  constructor
  · -- exclusivity: exactly one active replica owns the table
    have hAnd : ((entries.filter (fun p => 0 < p.2)).map Prod.fst).Nodup :=
      hnd.sublist ((List.filter_sublist entries).map Prod.fst)
    have hilt : fnv1a32 (utf8Bytes (db ++ "." ++ tbl)) %
        (sortStrings ((entries.filter (fun p => 0 < p.2)).map Prod.fst)).length <
        (sortStrings ((entries.filter (fun p => 0 < p.2)).map Prod.fst)).length := by
      apply Nat.mod_lt
      rw [sortStrings_length]
      omega
    have hsel_mem :
        (sortStrings ((entries.filter (fun p => 0 < p.2)).map Prod.fst)).getD
          (fnv1a32 (utf8Bytes (db ++ "." ++ tbl)) %
            (sortStrings ((entries.filter (fun p => 0 < p.2)).map Prod.fst)).length) ""
        ∈ (entries.filter (fun p => 0 < p.2)).map Prod.fst := by
      rw [(sortStrings_perm _).mem_iff.symm]
      rw [List.getD_eq_getElem _ _ hilt]
      exact List.getElem_mem hilt
    have hres : ∀ r : String, (fnvHashModShardFunc ⟨db, tbl, r, entries⟩).1 =
        ((sortStrings ((entries.filter (fun p => 0 < p.2)).map Prod.fst)).getD
          (fnv1a32 (utf8Bytes (db ++ "." ++ tbl)) %
            (sortStrings ((entries.filter (fun p => 0 < p.2)).map Prod.fst)).length) "" == r) := by
      intro r
      rw [fnvHashModShardFunc]
      simp only [if_neg hlen, tableReplicaMetadata.fullName]
    have hfe : ((entries.filter (fun p => 0 < p.2)).map Prod.fst).filter
          (fun r => (fnvHashModShardFunc ⟨db, tbl, r, entries⟩).1)
        = ((entries.filter (fun p => 0 < p.2)).map Prod.fst).filter
          (fun r => r ==
            (sortStrings ((entries.filter (fun p => 0 < p.2)).map Prod.fst)).getD
              (fnv1a32 (utf8Bytes (db ++ "." ++ tbl)) %
                (sortStrings ((entries.filter (fun p => 0 < p.2)).map Prod.fst)).length) "") := by
      apply List.filter_congr
      intro x _
      rw [hres x]
      exact strBeq_swap _ x
    rw [hfe, ← List.countP_eq_length_filter]
    exact List.count_eq_one_of_mem hAnd hsel_mem
  · -- order-independence: the output is a function of the entry multiset
    intro r
    exact fnvHashModShardFunc_congr_perm db tbl r entriesPerm entries
      ((hperm.filter _).map _)

/-- Witness for C2: the active set `{"r1", "r2"}` (enumerated in two
different orders, with an extra inactive entry) selects exactly one owner
for table `db.tbl`, and the two enumeration orders agree replica by
replica. -/
theorem fnvHashModShardFunc_exclusive_orderInvariant_witness :
    ((([("r2", 1), ("r1", 1), ("r3", 0)].filter (fun p => 0 < p.2)).map Prod.fst).filter
        (fun r => (fnvHashModShardFunc ⟨"db", "tbl", r, [("r2", 1), ("r1", 1), ("r3", 0)]⟩).1)).length = 1
    ∧ ∀ r : String,
        fnvHashModShardFunc ⟨"db", "tbl", r, [("r3", 0), ("r1", 1), ("r2", 1)]⟩ =
          fnvHashModShardFunc ⟨"db", "tbl", r, [("r2", 1), ("r1", 1), ("r3", 0)]⟩ :=
  fnvHashModShardFunc_exclusive_orderInvariant "db" "tbl"
    [("r2", 1), ("r1", 1), ("r3", 0)] [("r3", 0), ("r1", 1), ("r2", 1)]
    (by decide) (by decide) (by decide)

/-! ### Row-loop lemmas for `determineShards` -/

theorem applyShardFunc_append_error (sf : tableReplicaMetadata → Bool × Option GoError)
    (pre : List tableReplicaMetadata) (entry : tableReplicaMetadata)
    (post : List tableReplicaMetadata) (err : GoError)
    (hpre : ∀ u ∈ pre, (sf u).2 = none) (hentry : (sf entry).2 = some err) :
    ∀ sd, applyShardFunc sf (pre ++ entry :: post) sd = .error err := by
  induction pre with
  | nil =>
    intro sd
    rcases hsf : sf entry with ⟨b, e2⟩
    rw [hsf] at hentry
    simp only at hentry
    subst hentry
    simp [applyShardFunc, hsf]
  | cons p pre ih =>
    intro sd
    rcases hsf : sf p with ⟨b, e2⟩
    have hp : (sf p).2 = none := hpre p (by simp)
    rw [hsf] at hp
    simp only at hp
    subst hp
    simp only [List.cons_append, applyShardFunc, hsf]
    exact ih (fun u hu => hpre u (by simp [hu])) _

theorem applyShardFunc_ok_lookup (sf : tableReplicaMetadata → Bool × Option GoError) :
    ∀ (md : List tableReplicaMetadata) (sd : String → Option Bool)
      (a : String → Option Bool), applyShardFunc sf md sd = .ok a →
      ∀ key, a key =
        match (md.filter (fun r => r.fullName == key)).getLast? with
        | some r => some ((sf r).1)
        | none => sd key := by
  intro md
  induction md with
  | nil =>
    intro sd a h key
    simp only [applyShardFunc, Except.ok.injEq] at h
    subst h
    rfl
  | cons entry rest ih =>
    intro sd a h key
    rcases hsf : sf entry with ⟨b, e2⟩
    cases e2 with
    | some err => simp [applyShardFunc, hsf] at h
    | none =>
      simp only [applyShardFunc, hsf] at h
      rw [ih _ _ h key]
      cases hmatch : entry.fullName == key with
      | true =>
        have hkey : entry.fullName = key := by simpa using hmatch
        cases hrest : rest.filter (fun r => r.fullName == key) with
        | nil =>
          simp only [List.filter_cons, hmatch, if_true, hrest, List.getLast?_singleton]
          simp [mapUpdate, hkey, hsf]
        | cons x xs =>
          simp only [List.filter_cons, hmatch, if_true, hrest, List.getLast?_cons_cons]
          cases hlast : (x :: xs).getLast? with
          | none => simp at hlast
          | some r => simp [hlast]
      | false =>
        have hkey : ¬ key = entry.fullName := by
          intro hk
          subst hk
          simp at hmatch
        simp only [List.filter_cons, hmatch, if_false]
        cases hrest : rest.filter (fun r => r.fullName == key) with
        | nil => simp [mapUpdate, hkey]
        | cons x xs => rfl

/-- C7: `determineShards` applies the shard function to each returned row;
on the first per-row failure (all earlier rows having succeeded) it
returns exactly that row's error and no assignment; on success the
produced assignment maps every qualified name to the ownership computed
for the last returned row bearing that name (later rows silently
overwrite earlier ones), and unmentioned names to nothing. -/
theorem determineShards_row_semantics (md : List tableReplicaMetadata)
    (sf : tableReplicaMetadata → Bool × Option GoError) :
    (∀ pre entry post err, md = pre ++ entry :: post →
      (∀ u ∈ pre, (sf u).2 = none) → (sf entry).2 = some err →
      determineShards (.ok md) sf = .error err)
    ∧ (∀ a, determineShards (.ok md) sf = .ok a →
        ∀ key, a key =
          ((md.filter (fun r => r.fullName == key)).getLast?).map (fun r => (sf r).1)) := by
  constructor
  · intro pre entry post err hmd hpre hentry
    subst hmd
    exact applyShardFunc_append_error sf pre entry post err hpre hentry _
  · intro a h key
    have h' : applyShardFunc sf md emptyShardDetermination = .ok a := h
    rw [applyShardFunc_ok_lookup sf md _ a h' key]
    cases hrest : md.filter (fun r => r.fullName == key) with
    | nil => simp [emptyShardDetermination]
    | cons x xs =>
      cases hlast : (x :: xs).getLast? with
      | none => simp at hlast
      | some r => simp [hlast]

/-- Witness for C7: a failing second row (no active replicas) aborts the
determination with exactly that row's error, while a successful run over a
single row produces an assignment holding that row's ownership. -/
theorem determineShards_row_semantics_witness :
    determineShards
        (.ok [⟨"a", "present", "r", [("r", 1)]⟩, ⟨"x", "y", "r", []⟩])
        fnvHashModShardFunc =
      .error (GoError.wrapped "could not determine in-shard state for x.y"
        GoError.errNoActiveReplicas)
    ∧ (mapUpdate emptyShardDetermination "a.present" true) "a.present" = some true
    ∧ (mapUpdate emptyShardDetermination "a.present" true) "other.table" = none := by
  refine ⟨?_, ?_, ?_⟩
  · exact (determineShards_row_semantics
      [⟨"a", "present", "r", [("r", 1)]⟩, ⟨"x", "y", "r", []⟩] fnvHashModShardFunc).1
      [⟨"a", "present", "r", [("r", 1)]⟩] ⟨"x", "y", "r", []⟩ [] _ rfl (by decide) rfl
  · have := (determineShards_row_semantics [⟨"a", "present", "r", [("r", 1)]⟩]
      fnvHashModShardFunc).2 (mapUpdate emptyShardDetermination "a.present" true) rfl
      "a.present"
    rw [this]
    rfl
  · have := (determineShards_row_semantics [⟨"a", "present", "r", [("r", 1)]⟩]
      fnvHashModShardFunc).2 (mapUpdate emptyShardDetermination "a.present" true) rfl
      "other.table"
    rw [this]
    rfl

/-- C9: a successful replica-state query with zero rows yields the empty
assignment and no error; consequently, with the feature flag on, a passing
version gate and a non-empty table list, the orchestration step fails on
the very first table with the wrapped unknown-backup-shard error naming
it, all tables staying at the Full baseline. -/
theorem determineShards_empty_then_first_lookup_fails {α : Type} (v : Int)
    (sf : tableReplicaMetadata → Bool × Option GoError)
    (t : Table α) (rest : List (Table α))
    (hv : minVersShardOp ≤ v) :
    determineShards (.ok []) sf = .ok emptyShardDetermination
    ∧ populateBackupShardField true (.ok v) (.ok []) sf (t :: rest) =
      ((t :: rest).map (fun u => { u with backupType := ShardBackupType.full }),
       some (GoError.wrapped
        ("error determining backup shard state for " ++ goQuote (t.database ++ "." ++ t.name))
        GoError.errUnknownBackupShard)) := by
  refine ⟨rfl, ?_⟩
  rw [populateBackupShardField]
  simp only [Bool.not_true, if_false, canShardOperation,
    if_neg (show ¬ v < minVersShardOp by omega)]
  rfl

/-- Witness for C9. -/
theorem determineShards_empty_then_first_lookup_fails_witness :
    determineShards (.ok []) fnvHashModShardFunc = .ok emptyShardDetermination
    ∧ populateBackupShardField true (.ok 21000000) (.ok []) fnvHashModShardFunc
        [(⟨"a", "b", ShardBackupType.unspecified, ()⟩ : Table Unit)] =
      ([⟨"a", "b", ShardBackupType.full, ()⟩],
       some (GoError.wrapped
        ("error determining backup shard state for " ++ goQuote ("a" ++ "." ++ "b"))
        GoError.errUnknownBackupShard)) :=
  determineShards_empty_then_first_lookup_fails 21000000 fnvHashModShardFunc
    ⟨"a", "b", ShardBackupType.unspecified, ()⟩ [] (by decide)

/-! ### Frame lemmas for the orchestration step -/

theorem forall2_comp {α β γ : Type} {R : α → β → Prop} {S : β → γ → Prop}
    {T : α → γ → Prop} (hRS : ∀ a b c, R a b → S b c → T a c) :
    ∀ {l1 : List α} {l2 : List β} {l3 : List γ},
      List.Forall₂ R l1 l2 → List.Forall₂ S l2 l3 → List.Forall₂ T l1 l3 := by
  intro l1 l2 l3 h1
  induction h1 generalizing l3 with
  | nil =>
    intro h2
    cases h2
    constructor
  | cons hab h ih =>
    intro h2
    cases h2 with
    | cons hbc h2' => exact List.Forall₂.cons (hRS _ _ _ hab hbc) (ih h2')

theorem forall2_full_map {α : Type} (l : List (Table α)) :
    List.Forall₂ (fun t t' => t' = { t with backupType := ShardBackupType.full }) l
      (l.map (fun t => { t with backupType := ShardBackupType.full })) := by
  induction l with
  | nil => constructor
  | cons t rest ih => exact List.Forall₂.cons rfl ih

/-- The annotation loop leaves each table either untouched or downgraded
to schema-only, in place. -/
theorem annotateTables_forall2 {α : Type} (a : String → Option Bool)
    (ts : List (Table α)) :
    List.Forall₂ (fun t t' => t' = t ∨ t' = { t with backupType := ShardBackupType.schema })
      ts (annotateTables a ts).1 := by
  induction ts with
  | nil => constructor
  | cons t rest ih =>
    rw [annotateTables]
    rcases hsh : inShard a t.database t.name with ⟨typ, e2⟩
    cases e2 with
    | some err =>
      simp only
      exact List.Forall₂.cons (Or.inl rfl)
        (List.forall₂_same.mpr (fun x _ => Or.inl rfl))
    | none =>
      rcases hres : annotateTables a rest with ⟨rest', e⟩
      simp only [hres]
      refine List.Forall₂.cons ?_ ?_
      · cases typ
        · exact Or.inr rfl
        · exact Or.inl rfl
      · have h := ih
        rw [hres] at h
        exact h

/-- C10: the orchestration step only ever writes the backup-kind field:
for every run (any flag, versioner outcome, querier outcome, shard
function), the output list corresponds table by table to the input, each
output table agreeing with its input table on every field except possibly
`backupType`, and each output `backupType` is Full or SchemaOnly. -/
theorem populateBackupShardField_frame {α : Type} (shardedOperation : Bool)
    (versionResult : Except GoError Int)
    (queryResult : Except GoError (List tableReplicaMetadata))
    (sf : tableReplicaMetadata → Bool × Option GoError)
    (tables : List (Table α)) :
    List.Forall₂ (fun t t' =>
        (t'.backupType = ShardBackupType.full ∨ t'.backupType = ShardBackupType.schema)
        ∧ t' = { t with backupType := t'.backupType })
      tables
      (populateBackupShardField shardedOperation versionResult queryResult sf tables).1 := by
  have hfull : List.Forall₂ (fun t t' =>
      (t'.backupType = ShardBackupType.full ∨ t'.backupType = ShardBackupType.schema)
      ∧ t' = { t with backupType := t'.backupType })
      tables (tables.map (fun t => { t with backupType := ShardBackupType.full })) := by
    induction tables with
    | nil => constructor
    | cons t rest ih => exact List.Forall₂.cons ⟨Or.inl rfl, rfl⟩ ih
  rw [populateBackupShardField]
  cases shardedOperation with
  | false => exact hfull
  | true =>
    simp only [Bool.not_true, if_false]
    cases canShardOperation versionResult with
    | some err => exact hfull
    | none =>
      cases determineShards queryResult sf with
      | error err => exact hfull
      | ok assignment =>
        exact forall2_comp
          (fun t t2 t3 h1 h2 => by
            subst h1
            rcases h2 with h2 | h2
            · subst h2
              exact ⟨Or.inl rfl, rfl⟩
            · subst h2
              exact ⟨Or.inr rfl, rfl⟩)
          (forall2_full_map tables) (annotateTables_forall2 assignment _)

/-! ### Abort behavior of the annotation loop -/

/-- Where the first lookup failure happens in the annotation loop: every
table before it is already annotated in place (downgraded to schema-only
exactly when its assignment entry is `false`), the failing table and
everything after it are left untouched, and the loop returns the failing
table's wrapped unknown-backup-shard error. -/
theorem annotateTables_error_at {α : Type} (a : String → Option Bool)
    (pre : List (Table α)) (t : Table α) (post : List (Table α))
    (hpre : ∀ u ∈ pre, a (u.database ++ "." ++ u.name) ≠ none)
    (ht : a (t.database ++ "." ++ t.name) = none) :
    annotateTables a (pre ++ t :: post) =
      (pre.map (fun u => if a (u.database ++ "." ++ u.name) = some false
          then { u with backupType := ShardBackupType.schema } else u)
        ++ t :: post,
       some (GoError.wrapped
         ("error determining backup shard state for " ++ goQuote (t.database ++ "." ++ t.name))
         GoError.errUnknownBackupShard)) := by
  induction pre with
  | nil =>
    simp only [List.nil_append, List.map_nil, annotateTables, inShard, ht]
  | cons u pre ih =>
    have hu := hpre u (List.mem_cons_self u pre)
    rcases hv : a (u.database ++ "." ++ u.name) with _ | b
    · exact absurd hv hu
    · simp only [List.cons_append, List.map_cons, annotateTables, inShard, hv,
        List.append_eq]
      rw [ih (fun w hw => hpre w (List.mem_cons_of_mem u hw))]
      cases b with
      | false => simp
      | true => simp

/-- Counterexample for C3 as stated: with the flag on, a passing version
gate, and an assignment holding `a.absent ↦ false` but nothing for `x.y`,
the step aborts on `x.y` (second table) and returns the unknown-backup-shard
error — yet the first table has already been downgraded from the Full
baseline to SchemaOnly, so the aborted run does leave a partial commit. -/
theorem populateBackupShardField_partial_commit_counterexample :
    populateBackupShardField true (.ok 21000000)
        (.ok [⟨"a", "absent", "r", [("other", 1)]⟩]) fnvHashModShardFunc
        [(⟨"a", "absent", ShardBackupType.unspecified, ()⟩ : Table Unit),
         ⟨"x", "y", ShardBackupType.unspecified, ()⟩] =
      ([⟨"a", "absent", ShardBackupType.schema, ()⟩,
        ⟨"x", "y", ShardBackupType.full, ()⟩],
       some (GoError.wrapped ("error determining backup shard state for " ++ goQuote "x.y")
         GoError.errUnknownBackupShard)) := by
  decide

/-- C3 (amended): whenever a lookup fails during the annotation loop, the
step aborts at the first failing table and returns that table's wrapped
unknown-backup-shard error; the failing table and every later one keep
the Full baseline, while every earlier table has already been committed —
downgraded to SchemaOnly exactly where its assignment value is false. -/
theorem populateBackupShardField_abort_semantics {α : Type}
    (versionResult : Except GoError Int)
    (queryResult : Except GoError (List tableReplicaMetadata))
    (sf : tableReplicaMetadata → Bool × Option GoError)
    (a : String → Option Bool)
    (pre : List (Table α)) (t : Table α) (post : List (Table α))
    (hv : canShardOperation versionResult = none)
    (ha : determineShards queryResult sf = .ok a)
    (hpre : ∀ u ∈ pre, a (u.database ++ "." ++ u.name) ≠ none)
    (ht : a (t.database ++ "." ++ t.name) = none) :
    populateBackupShardField true versionResult queryResult sf (pre ++ t :: post) =
      (pre.map (fun u => { u with backupType :=
          (if a (u.database ++ "." ++ u.name) = some false then ShardBackupType.schema
           else ShardBackupType.full) })
        ++ (t :: post).map (fun u => { u with backupType := ShardBackupType.full }),
       some (GoError.wrapped
         ("error determining backup shard state for " ++ goQuote (t.database ++ "." ++ t.name))
         GoError.errUnknownBackupShard)) := by
  rw [populateBackupShardField]
  simp only [Bool.not_true, Bool.false_eq_true, if_false, hv, ha]
  rw [List.map_append, List.map_cons]
  rw [annotateTables_error_at a
    (pre.map (fun u => { u with backupType := ShardBackupType.full }))
    ({ t with backupType := ShardBackupType.full })
    (post.map (fun u => { u with backupType := ShardBackupType.full }))
    (fun u hu => by
      rcases List.mem_map.mp hu with ⟨w, hw, rfl⟩
      exact hpre w hw)
    ht]
  rw [List.map_map]
  refine Prod.ext ?_ rfl
  simp only
  congr 1
  apply List.map_congr_left
  intro x _
  by_cases h : a (x.database ++ "." ++ x.name) = some false
  · simp [Function.comp, h]
  · simp [Function.comp, h]

/-- Witness for the amended C3, at the counterexample's inputs: the first
table (assignment value false) is committed to SchemaOnly while the
failing second table and the error are as described. -/
theorem populateBackupShardField_abort_semantics_witness :
    populateBackupShardField true (.ok 21000000)
        (.ok [⟨"a", "absent", "r", [("other", 1)]⟩]) fnvHashModShardFunc
        ([(⟨"a", "absent", ShardBackupType.unspecified, ()⟩ : Table Unit)] ++
          ⟨"x", "y", ShardBackupType.unspecified, ()⟩ :: []) =
      ([(⟨"a", "absent", ShardBackupType.unspecified, ()⟩ : Table Unit)].map (fun u =>
          { u with backupType :=
            (if (mapUpdate emptyShardDetermination "a.absent" false)
                  (u.database ++ "." ++ u.name) = some false then ShardBackupType.schema
             else ShardBackupType.full) })
        ++ ((⟨"x", "y", ShardBackupType.unspecified, ()⟩ : Table Unit) :: []).map (fun u =>
            { u with backupType := ShardBackupType.full }),
       some (GoError.wrapped
         ("error determining backup shard state for " ++ goQuote ("x" ++ "." ++ "y"))
         GoError.errUnknownBackupShard)) :=
  populateBackupShardField_abort_semantics (.ok 21000000)
    (.ok [⟨"a", "absent", "r", [("other", 1)]⟩]) fnvHashModShardFunc
    (mapUpdate emptyShardDetermination "a.absent" false)
    [⟨"a", "absent", ShardBackupType.unspecified, ()⟩]
    ⟨"x", "y", ShardBackupType.unspecified, ()⟩ []
    rfl rfl (by decide) rfl

end ClickhouseBackup
